import Mathlib

/-!
Verification development for the PyOpia pipeline engine
(`src/pyopia/pipeline.py`).

The embedding models:
* `Ctx` — the shared `data` dictionary (Python `dict`: insertion-ordered,
  string-keyed); `lookupCtx` / `updateCtx` follow `dict.__getitem__` /
  `dict.__setitem__` semantics (updating an existing key keeps its position,
  a new key is appended).
* `Stage` — a pipeline step handler object: its type name (`str(type(x))`),
  its instance-attribute dictionary rendered as a string (`str(vars(x))`,
  `none` when the object does not support `vars()` and the call raises
  `TypeError`), its behaviour when called with the data dict
  (`steps[s](data)`), and its behaviour when called with no argument
  (`steps['classifier']()`).
* `Event` — an instrumentation trace of what the engine does: direct keyed
  stores into `self.data` performed by the engine itself, stage invocations
  with the context argument, and no-argument stage invocations.
* `initLoop` / `Pipeline.init` — the `for` loop of `Pipeline.__init__`.
  Python `dict` keys are unique, so `self.steps[s]` inside the loop is the
  entry currently being iterated; the embedding uses that entry directly.
* `runLoop` / `Pipeline.run` — the body of `Pipeline.run`.
* `steps_to_string` — the audit-string builder; it fails (propagating the
  `TypeError` from `vars()`) when some handler has no attribute dictionary.

Errors are modelled with `Except`; a raised Python exception is an
`Except.error` that short-circuits the rest of the computation.
-/

/-- Errors the engine or a stage can raise. `keyError k` models a Python
`KeyError` on dictionary lookup of `k`; `typeError` models the `TypeError`
raised by `vars()` on an object without `__dict__`; `stageError` models an
arbitrary exception raised inside a stage's own code. -/
inductive PErr where
  | keyError (k : String)
  | typeError (msg : String)
  | stageError (msg : String)
deriving DecidableEq, Repr

/-- Values stored in the shared data dictionary. Strings cover the keys the
engine itself writes (`filename`, `steps_string`); `nat` stands for any other
opaque payload a stage may produce. -/
inductive Val where
  | str (s : String)
  | nat (n : Nat)
deriving DecidableEq, Repr

/-- The shared `data` dictionary: insertion-ordered association list. -/
def Ctx := List (String × Val)
deriving DecidableEq, Repr

/-- `d[k]` for a Python dict: the value of the first (unique) binding of `k`,
`none` when absent. -/
def lookupCtx (d : Ctx) (k : String) : Option Val :=
  match d with
  | [] => none
  | (k', v) :: rest => if k' = k then some v else lookupCtx rest k

/-- `d[k] = v` for a Python dict: overwrite in place if `k` is bound,
otherwise append at the end (insertion order). -/
def updateCtx (d : Ctx) (k : String) (v : Val) : Ctx :=
  match d with
  | [] => [(k, v)]
  | (k', v') :: rest =>
      if k' = k then (k, v) :: rest else (k', v') :: updateCtx rest k v

/-- A pipeline step handler object, as the engine sees it. -/
structure Stage where
  /-- `str(type(x))`. -/
  typeName : String
  /-- `str(vars(x))` when the object has an attribute dictionary;
  `none` when `vars(x)` raises `TypeError`. -/
  varsAttr : Option String
  /-- Behaviour of `x(data)`: receives the data dict, returns the new data
  dict or raises. -/
  call : Ctx → Except PErr Ctx
  /-- Behaviour of `x()`: invoked with no argument (the reserved classifier
  convention), returns a value or raises. -/
  callNoArg : Except PErr Val

/-- Instrumentation events recording what the engine does, in order. -/
inductive Event where
  /-- The engine itself executes `self.data[key] = v`. -/
  | store (key : String) (v : Val)
  /-- The engine invokes stage `name` as `steps[name](ctx)`. -/
  | callCtx (name : String) (ctx : Ctx)
  /-- The engine invokes stage `name` as `steps[name]()`. -/
  | callNoArg (name : String)

/-- The stage name an event invokes, if it is an invocation event. -/
def evStageName : Event → Option String
  | .store _ _ => none
  | .callCtx n _ => some n
  | .callNoArg n => some n

/-- One line-group of the audit string: `str(i+1) + ') Step: ' + key +
'\n   Type: ' + str(type(step)) + '\n   Vars: ' + str(vars(step)) + '\n'`
with `idx` already 1-based. -/
def lineGroup (idx : Nat) (key ty vs : String) : String :=
  toString idx ++ ") Step: " ++ key ++ "\n   Type: " ++ ty
    ++ "\n   Vars: " ++ vs ++ "\n"

/-- The body of one iteration of `steps_to_string`: renders stage number
`i + 1`; raises `TypeError` if the handler does not support `vars()`. -/
def stepString (i : Nat) (key : String) (st : Stage) : Except PErr String :=
  match st.varsAttr with
  | none => .error (.typeError "vars() argument must have __dict__ attribute")
  | some vs => .ok (lineGroup (i + 1) key st.typeName vs)

/-- The `for i, key in enumerate(steps.keys())` loop of `steps_to_string`,
starting at index `i`. -/
def stepsToStringAux (i : Nat) (steps : List (String × Stage)) :
    Except PErr String :=
  match steps with
  | [] => .ok ""
  | (k, st) :: rest => do
      let s ← stepString i k st
      let r ← stepsToStringAux (i + 1) rest
      .ok (s ++ r)

/-- `steps_to_string(steps)`: `'\n'` followed by one line-group per stage. -/
def steps_to_string (steps : List (String × Stage)) : Except PErr String := do
  .ok ("\n" ++ (← stepsToStringAux 0 steps))

/-- The `for s in self.steps` loop of `Pipeline.__init__`: skip entries not
in `initial_steps`; the entry named `"classifier"` is invoked with no
argument and its result stored under `"cl"`; every other initial entry is
invoked with the data dict, which is replaced by its return value.
Returns the trace of engine actions and the final data dict (or the first
raised exception). -/
def initLoop (initial_steps : List String) (steps : List (String × Stage))
    (data : Ctx) : List Event × Except PErr Ctx :=
  match steps with
  | [] => ([], .ok data)
  | (s, st) :: rest =>
      if initial_steps.contains s then
        if s = "classifier" then
          match st.callNoArg with
          | .error e => ([.callNoArg s], .error e)
          | .ok v =>
              let res := initLoop initial_steps rest (updateCtx data "cl" v)
              (.callNoArg s :: .store "cl" v :: res.1, res.2)
        else
          match st.call data with
          | .error e => ([.callCtx s data], .error e)
          | .ok d' =>
              let res := initLoop initial_steps rest d'
              (.callCtx s data :: res.1, res.2)
      else
        initLoop initial_steps rest data

/-- The engine state after a successful construction: the configured
`initial_steps`, the stage registry `steps`, and the shared `data` dict. -/
structure Pipeline where
  initial_steps : List String
  steps : List (String × Stage)
  data : Ctx

/-- `Pipeline(steps, initial_steps=['initial', 'classifier'])`: start from an
empty data dict and execute the initial-set stages in registry order.  A
raised exception aborts construction: no `Pipeline` value is produced. -/
def Pipeline.init (steps : List (String × Stage))
    (initial_steps : List String := ["initial", "classifier"]) :
    List Event × Except PErr Pipeline :=
  let res := initLoop initial_steps steps []
  (res.1, res.2.map fun d => ⟨initial_steps, steps, d⟩)

/-- The `for s in self.steps` loop of `Pipeline.run`: skip entries in
`initial_steps`; invoke every other entry with the data dict, replacing it
with the return value. -/
def runLoop (initial_steps : List String) (steps : List (String × Stage))
    (data : Ctx) : List Event × Except PErr Ctx :=
  match steps with
  | [] => ([], .ok data)
  | (s, st) :: rest =>
      if initial_steps.contains s then
        runLoop initial_steps rest data
      else
        match st.call data with
        | .error e => ([.callCtx s data], .error e)
        | .ok d' =>
            let res := runLoop initial_steps rest d'
            (.callCtx s data :: res.1, res.2)

/-- `Pipeline.run(filename)`: store the filename under `'filename'`, store
the recomputed audit string under `'steps_string'` (the `steps_to_string`
call is evaluated before the assignment, so its exception pre-empts the
store), execute the non-initial stages in registry order, then extract and
return `data['stats']` together with the updated engine state. -/
def Pipeline.run (p : Pipeline) (filename : Val) :
    List Event × Except PErr (Val × Pipeline) :=
  let d1 := updateCtx p.data "filename" filename
  match steps_to_string p.steps with
  | .error e => ([.store "filename" filename], .error e)
  | .ok ss =>
      let d2 := updateCtx d1 "steps_string" (.str ss)
      let res := runLoop p.initial_steps p.steps d2
      let trAll := Event.store "filename" filename ::
        Event.store "steps_string" (.str ss) :: res.1
      match res.2 with
      | .error e => (trAll, .error e)
      | .ok d3 =>
          match lookupCtx d3 "stats" with
          | none => (trAll, .error (.keyError "stats"))
          | some v => (trAll, .ok (v, { p with data := d3 }))

/-- Plain sequential execution of a stage list (no skipping): the declarative
description of "invoke each stage with the context and replace the context
with its return value". -/
def execStages (d : Ctx) (ss : List (String × Stage)) : Except PErr Ctx :=
  match ss with
  | [] => .ok d
  | (_, st) :: rest =>
      match st.call d with
      | .error e => .error e
      | .ok d' => execStages d' rest

/-- The run-phase stages of a registry: the entries whose names are not in
the initial set, in registry order. -/
def runStages (initial_steps : List String)
    (steps : List (String × Stage)) : List (String × Stage) :=
  steps.filter fun q => ¬ initial_steps.contains q.1

/-- The initial-phase stages of a registry: the entries whose names are in
the initial set, in registry order. -/
def initStages (initial_steps : List String)
    (steps : List (String × Stage)) : List (String × Stage) :=
  steps.filter fun q => initial_steps.contains q.1

/-! ### Basic dictionary lemmas -/

theorem lookupCtx_update_self (d : Ctx) (k : String) (v : Val) :
    lookupCtx (updateCtx d k v) k = some v := by
  induction d with
  | nil => simp [updateCtx, lookupCtx]
  | cons p rest ih =>
      obtain ⟨k', v'⟩ := p
      by_cases h : k' = k
      · simp [updateCtx, lookupCtx, h]
      · simp [updateCtx, lookupCtx, h, ih]

theorem lookupCtx_update_ne (d : Ctx) (k k' : String) (v : Val)
    (h : k' ≠ k) : lookupCtx (updateCtx d k v) k' = lookupCtx d k' := by
  have hk : ¬ k = k' := fun hh => h hh.symm
  induction d with
  | nil => simp [updateCtx, lookupCtx, hk]
  | cons p rest ih =>
      obtain ⟨k₀, v₀⟩ := p
      by_cases h₀ : k₀ = k
      · subst h₀
        simp [updateCtx, lookupCtx, hk]
      · simp [updateCtx, lookupCtx, h₀, ih]

theorem lookupCtx_update_isSome (d : Ctx) (k k' : String) (v : Val)
    (h : (lookupCtx d k').isSome) :
    (lookupCtx (updateCtx d k v) k').isSome := by
  by_cases hk : k' = k
  · subst hk; simp [lookupCtx_update_self]
  · rwa [lookupCtx_update_ne d k k' v hk]

/-! ### Lemmas about the run-phase loop -/

theorem runLoop_events (I : List String) (steps : List (String × Stage))
    (d : Ctx) : ∀ e ∈ (runLoop I steps d).1, ∃ n c, e = .callCtx n c := by
  induction steps generalizing d with
  | nil => intro e he; simp [runLoop] at he
  | cons q rest ih =>
      intro e he
      obtain ⟨s, st⟩ := q
      by_cases hc : I.contains s
      · rw [runLoop, if_pos hc] at he
        exact ih d e he
      · rw [runLoop, if_neg hc] at he
        cases hcall : st.call d with
        | error err =>
            rw [hcall] at he
            simp at he
            exact ⟨s, d, he⟩
        | ok d' =>
            rw [hcall] at he
            simp at he
            rcases he with he | he
            · exact ⟨s, d, he⟩
            · exact ih d' e he

theorem runLoop_ok_names (I : List String) (steps : List (String × Stage))
    (d : Ctx) (tr : List Event) (d' : Ctx)
    (h : runLoop I steps d = (tr, .ok d')) :
    tr.filterMap evStageName = (runStages I steps).map Prod.fst := by
  induction steps generalizing d tr with
  | nil =>
      simp [runLoop] at h
      simp [h.1, runStages]
  | cons q rest ih =>
      obtain ⟨s, st⟩ := q
      by_cases hc : I.contains s
      · rw [runLoop, if_pos hc] at h
        simp only [runStages, List.filter_cons, hc]
        simpa [runStages] using ih d tr h
      · rw [runLoop, if_neg hc] at h
        cases hcall : st.call d with
        | error err => rw [hcall] at h; simp at h
        | ok d₁ =>
            rw [hcall] at h
            have h1 : tr = .callCtx s d :: (runLoop I rest d₁).1 := by
              have := congrArg Prod.fst h
              simpa using this.symm
            have h2 : (runLoop I rest d₁).2 = .ok d' := by
              have := congrArg Prod.snd h
              simpa using this
            have hrec := ih d₁ (runLoop I rest d₁).1 (by rw [← h2])
            simp only [runStages, List.filter_cons] at hrec ⊢
            simp only [hc]
            simp [h1, evStageName, List.filterMap_cons, hrec, runStages]

theorem runLoop_ok_exec (I : List String) (steps : List (String × Stage))
    (d : Ctx) (tr : List Event) (d' : Ctx)
    (h : runLoop I steps d = (tr, .ok d')) :
    execStages d (runStages I steps) = .ok d' := by
  induction steps generalizing d tr with
  | nil =>
      simp [runLoop] at h
      simp [runStages, execStages, h.2]
  | cons q rest ih =>
      obtain ⟨s, st⟩ := q
      by_cases hc : I.contains s
      · rw [runLoop, if_pos hc] at h
        simp only [runStages, List.filter_cons, hc]
        simpa [runStages] using ih d tr h
      · rw [runLoop, if_neg hc] at h
        cases hcall : st.call d with
        | error err => rw [hcall] at h; simp at h
        | ok d₁ =>
            rw [hcall] at h
            have h2 : (runLoop I rest d₁).2 = .ok d' := by
              have := congrArg Prod.snd h
              simpa using this
            have hrec := ih d₁ (runLoop I rest d₁).1 (by rw [← h2])
            simp only [runStages, List.filter_cons, hc] at hrec ⊢
            simp only [execStages, hcall]
            simpa [runStages] using hrec

theorem runLoop_append_ok (I : List String) (xs ys : List (String × Stage))
    (d : Ctx) (tr : List Event) (d₁ : Ctx)
    (h : runLoop I xs d = (tr, .ok d₁)) :
    runLoop I (xs ++ ys) d =
      (tr ++ (runLoop I ys d₁).1, (runLoop I ys d₁).2) := by
  induction xs generalizing d tr with
  | nil =>
      simp [runLoop] at h
      simp [h.1, h.2]
  | cons q rest ih =>
      obtain ⟨s, st⟩ := q
      by_cases hc : I.contains s
      · rw [runLoop, if_pos hc] at h
        rw [List.cons_append, runLoop, if_pos hc]
        exact ih d tr h
      · rw [runLoop, if_neg hc] at h
        rw [List.cons_append, runLoop, if_neg hc]
        cases hcall : st.call d with
        | error err => rw [hcall] at h; simp at h
        | ok d₂ =>
            rw [hcall] at h
            have h1 : tr = .callCtx s d :: (runLoop I rest d₂).1 := by
              have := congrArg Prod.fst h
              simpa using this.symm
            have h2 : (runLoop I rest d₂).2 = .ok d₁ := by
              have := congrArg Prod.snd h
              simpa using this
            have hrec := ih d₂ (runLoop I rest d₂).1 (by rw [← h2])
            simp [hrec, h1]

theorem runLoop_append_error (I : List String) (xs ys : List (String × Stage))
    (d : Ctx) (tr : List Event) (e : PErr)
    (h : runLoop I xs d = (tr, .error e)) :
    runLoop I (xs ++ ys) d = (tr, .error e) := by
  induction xs generalizing d tr with
  | nil => simp [runLoop] at h
  | cons q rest ih =>
      obtain ⟨s, st⟩ := q
      by_cases hc : I.contains s
      · rw [runLoop, if_pos hc] at h
        rw [List.cons_append, runLoop, if_pos hc]
        exact ih d tr h
      · rw [runLoop, if_neg hc] at h
        rw [List.cons_append, runLoop, if_neg hc]
        cases hcall : st.call d with
        | error err => rw [hcall] at h; exact h
        | ok d₂ =>
            rw [hcall] at h
            have h1 : tr = .callCtx s d :: (runLoop I rest d₂).1 := by
              have := congrArg Prod.fst h
              simpa using this.symm
            have h2 : (runLoop I rest d₂).2 = .error e := by
              have := congrArg Prod.snd h
              simpa using this
            have hrec := ih d₂ (runLoop I rest d₂).1 (by rw [← h2])
            simp [hrec, h1]

theorem initLoop_append_ok (I : List String) (xs ys : List (String × Stage))
    (d : Ctx) (tr : List Event) (d₁ : Ctx)
    (h : initLoop I xs d = (tr, .ok d₁)) :
    initLoop I (xs ++ ys) d =
      (tr ++ (initLoop I ys d₁).1, (initLoop I ys d₁).2) := by
  induction xs generalizing d tr with
  | nil =>
      simp [initLoop] at h
      simp [h.1, h.2]
  | cons q rest ih =>
      obtain ⟨s, st⟩ := q
      by_cases hc : I.contains s
      · by_cases hcl : s = "classifier"
        · subst hcl
          rw [initLoop, if_pos hc, if_pos rfl] at h
          rw [List.cons_append, initLoop, if_pos hc, if_pos rfl]
          cases hna : st.callNoArg with
          | error err => rw [hna] at h; simp at h
          | ok v =>
              rw [hna] at h
              have h1 : tr = .callNoArg "classifier" :: .store "cl" v ::
                  (initLoop I rest (updateCtx d "cl" v)).1 := by
                have := congrArg Prod.fst h
                simpa using this.symm
              have h2 : (initLoop I rest (updateCtx d "cl" v)).2 = .ok d₁ := by
                have := congrArg Prod.snd h
                simpa using this
              have hrec := ih (updateCtx d "cl" v)
                (initLoop I rest (updateCtx d "cl" v)).1 (by rw [← h2])
              simp [hrec, h1]
        · rw [initLoop, if_pos hc, if_neg hcl] at h
          rw [List.cons_append, initLoop, if_pos hc, if_neg hcl]
          cases hcall : st.call d with
          | error err => rw [hcall] at h; simp at h
          | ok d₂ =>
              rw [hcall] at h
              have h1 : tr = .callCtx s d :: (initLoop I rest d₂).1 := by
                have := congrArg Prod.fst h
                simpa using this.symm
              have h2 : (initLoop I rest d₂).2 = .ok d₁ := by
                have := congrArg Prod.snd h
                simpa using this
              have hrec := ih d₂ (initLoop I rest d₂).1 (by rw [← h2])
              simp [hrec, h1]
      · rw [initLoop, if_neg hc] at h
        rw [List.cons_append, initLoop, if_neg hc]
        exact ih d tr h

/-! ### Lemmas about the initialization loop -/

theorem initLoop_ok_names (I : List String) (steps : List (String × Stage))
    (d : Ctx) (tr : List Event) (d' : Ctx)
    (h : initLoop I steps d = (tr, .ok d')) :
    tr.filterMap evStageName = (initStages I steps).map Prod.fst := by
  induction steps generalizing d tr with
  | nil =>
      simp [initLoop] at h
      simp [h.1, initStages]
  | cons q rest ih =>
      obtain ⟨s, st⟩ := q
      by_cases hc : I.contains s
      · by_cases hcl : s = "classifier"
        · subst hcl
          rw [initLoop, if_pos hc, if_pos rfl] at h
          cases hna : st.callNoArg with
          | error err => rw [hna] at h; simp at h
          | ok v =>
              rw [hna] at h
              have h1 : tr = .callNoArg "classifier" :: .store "cl" v ::
                  (initLoop I rest (updateCtx d "cl" v)).1 := by
                have := congrArg Prod.fst h
                simpa using this.symm
              have h2 : (initLoop I rest (updateCtx d "cl" v)).2 = .ok d' := by
                have := congrArg Prod.snd h
                simpa using this
              have hrec := ih (updateCtx d "cl" v)
                (initLoop I rest (updateCtx d "cl" v)).1 (by rw [← h2])
              simp only [initStages, List.filter_cons, hc] at hrec ⊢
              simp [h1, evStageName, hrec, initStages]
        · rw [initLoop, if_pos hc, if_neg hcl] at h
          cases hcall : st.call d with
          | error err => rw [hcall] at h; simp at h
          | ok d₁ =>
              rw [hcall] at h
              have h1 : tr = .callCtx s d :: (initLoop I rest d₁).1 := by
                have := congrArg Prod.fst h
                simpa using this.symm
              have h2 : (initLoop I rest d₁).2 = .ok d' := by
                have := congrArg Prod.snd h
                simpa using this
              have hrec := ih d₁ (initLoop I rest d₁).1 (by rw [← h2])
              simp only [initStages, List.filter_cons, hc] at hrec ⊢
              simp [h1, evStageName, hrec, initStages]
      · rw [initLoop, if_neg hc] at h
        simp only [initStages, List.filter_cons, hc]
        simpa [initStages] using ih d tr h

theorem initLoop_no_classifier (I : List String)
    (hI : I.contains "classifier" = false) (steps : List (String × Stage))
    (d : Ctx) :
    ∀ e ∈ (initLoop I steps d).1,
      (∀ n, e ≠ .callNoArg n) ∧ (∀ v, e ≠ .store "cl" v) := by
  induction steps generalizing d with
  | nil => intro e he; simp [initLoop] at he
  | cons q rest ih =>
      intro e he
      obtain ⟨s, st⟩ := q
      by_cases hc : I.contains s
      · have hcl : ¬ s = "classifier" := by
          intro hs; rw [hs, hI] at hc; exact Bool.noConfusion hc
        rw [initLoop, if_pos hc, if_neg hcl] at he
        cases hcall : st.call d with
        | error err =>
            rw [hcall] at he
            simp at he
            subst he
            exact ⟨fun n hn => Event.noConfusion hn,
              fun v hv => Event.noConfusion hv⟩
        | ok d₁ =>
            rw [hcall] at he
            simp at he
            rcases he with he | he
            · subst he
              exact ⟨fun n hn => Event.noConfusion hn,
                fun v hv => Event.noConfusion hv⟩
            · exact ih d₁ e he
      · rw [initLoop, if_neg hc] at he
        exact ih d e he

/-- If no stage in the list is named `"classifier"` and every stage's call
preserves the binding of `"cl"`, the initialization loop preserves the
binding of `"cl"`. -/
theorem initLoop_preserves_cl (I : List String)
    (steps : List (String × Stage)) (d : Ctx) (tr : List Event) (d' : Ctx)
    (hno : ∀ q ∈ steps, q.1 ≠ "classifier")
    (hpres : ∀ q ∈ steps, ∀ c c', q.2.call c = .ok c' →
      lookupCtx c' "cl" = lookupCtx c "cl")
    (h : initLoop I steps d = (tr, .ok d')) :
    lookupCtx d' "cl" = lookupCtx d "cl" := by
  induction steps generalizing d tr with
  | nil =>
      simp [initLoop] at h
      rw [h.2]
  | cons q rest ih =>
      obtain ⟨s, st⟩ := q
      have hs : s ≠ "classifier" := hno (s, st) (List.mem_cons_self _ _)
      by_cases hc : I.contains s
      · rw [initLoop, if_pos hc, if_neg hs] at h
        cases hcall : st.call d with
        | error err => rw [hcall] at h; simp at h
        | ok d₁ =>
            rw [hcall] at h
            have h2 : (initLoop I rest d₁).2 = .ok d' := by
              have := congrArg Prod.snd h
              simpa using this
            have hrec := ih d₁ (initLoop I rest d₁).1
              (fun q hq => hno q (List.mem_cons_of_mem _ hq))
              (fun q hq => hpres q (List.mem_cons_of_mem _ hq))
              (by rw [← h2])
            rw [hrec]
            exact hpres (s, st) (List.mem_cons_self _ _) d d₁ hcall
      · rw [initLoop, if_neg hc] at h
        exact ih d tr (fun q hq => hno q (List.mem_cons_of_mem _ hq))
          (fun q hq => hpres q (List.mem_cons_of_mem _ hq)) h

/-- Whether an event is a no-argument stage invocation. -/
def isNoArgEvent : Event → Bool
  | .callNoArg _ => true
  | _ => false

theorem initLoop_noArg_count (I : List String) (steps : List (String × Stage))
    (d : Ctx) (tr : List Event) (d' : Ctx)
    (h : initLoop I steps d = (tr, .ok d')) :
    tr.countP isNoArgEvent =
      ((initStages I steps).map Prod.fst).count "classifier" := by
  induction steps generalizing d tr with
  | nil =>
      simp [initLoop] at h
      simp [h.1, initStages]
  | cons q rest ih =>
      obtain ⟨s, st⟩ := q
      by_cases hc : I.contains s
      · by_cases hcl : s = "classifier"
        · subst hcl
          rw [initLoop, if_pos hc, if_pos rfl] at h
          cases hna : st.callNoArg with
          | error err => rw [hna] at h; simp at h
          | ok v =>
              rw [hna] at h
              have h1 : tr = .callNoArg "classifier" :: .store "cl" v ::
                  (initLoop I rest (updateCtx d "cl" v)).1 := by
                have := congrArg Prod.fst h
                simpa using this.symm
              have h2 : (initLoop I rest (updateCtx d "cl" v)).2 = .ok d' := by
                have := congrArg Prod.snd h
                simpa using this
              have hrec := ih (updateCtx d "cl" v)
                (initLoop I rest (updateCtx d "cl" v)).1 (by rw [← h2])
              simp only [initStages, List.filter_cons, hc] at hrec ⊢
              simp [h1, List.countP_cons, isNoArgEvent, hrec, initStages,
                List.count_cons]
        · rw [initLoop, if_pos hc, if_neg hcl] at h
          cases hcall : st.call d with
          | error err => rw [hcall] at h; simp at h
          | ok d₁ =>
              rw [hcall] at h
              have h1 : tr = .callCtx s d :: (initLoop I rest d₁).1 := by
                have := congrArg Prod.fst h
                simpa using this.symm
              have h2 : (initLoop I rest d₁).2 = .ok d' := by
                have := congrArg Prod.snd h
                simpa using this
              have hrec := ih d₁ (initLoop I rest d₁).1 (by rw [← h2])
              simp only [initStages, List.filter_cons, hc] at hrec ⊢
              simp [h1, List.countP_cons, isNoArgEvent, hrec, initStages,
                List.count_cons, hcl]
      · rw [initLoop, if_neg hc] at h
        simp only [initStages, List.filter_cons, hc]
        simpa [initStages] using ih d tr h

/-- If the classifier entry is present (under unique names), the initial set
contains `"classifier"`, the other stages preserve the `"cl"` binding, and
initialization succeeds, then the final data dict binds `"cl"` to the
classifier's returned value. -/
theorem initLoop_cl (I : List String) (steps : List (String × Stage))
    (cst : Stage) (d : Ctx) (tr : List Event) (d' : Ctx)
    (hnd : (steps.map Prod.fst).Nodup)
    (hmem : ("classifier", cst) ∈ steps)
    (hI : I.contains "classifier" = true)
    (hpres : ∀ q ∈ steps, q.1 ≠ "classifier" → ∀ c c', q.2.call c = .ok c' →
      lookupCtx c' "cl" = lookupCtx c "cl")
    (h : initLoop I steps d = (tr, .ok d')) :
    ∃ v, cst.callNoArg = .ok v ∧ lookupCtx d' "cl" = some v := by
  induction steps generalizing d tr with
  | nil => simp at hmem
  | cons q rest ih =>
      obtain ⟨s, st⟩ := q
      simp only [List.map_cons, List.nodup_cons] at hnd
      rcases List.mem_cons.mp hmem with hhead | htail
      · injection hhead with hs hst
        subst hs
        subst hst
        rw [initLoop, if_pos hI, if_pos rfl] at h
        cases hna : cst.callNoArg with
        | error err => rw [hna] at h; simp at h
        | ok v =>
            rw [hna] at h
            have h2 : (initLoop I rest (updateCtx d "cl" v)).2 = .ok d' := by
              have := congrArg Prod.snd h
              simpa using this
            have hno : ∀ q ∈ rest, q.1 ≠ "classifier" := by
              intro q hq hq1
              exact hnd.1 (hq1 ▸ List.mem_map_of_mem Prod.fst hq)
            have hcl := initLoop_preserves_cl I rest (updateCtx d "cl" v)
              (initLoop I rest (updateCtx d "cl" v)).1 d' hno
              (fun q hq c c' hc => hpres q (List.mem_cons_of_mem _ hq)
                (hno q hq) c c' hc)
              (by rw [← h2])
            exact ⟨v, rfl, by rw [hcl, lookupCtx_update_self]⟩
      · have hs : s ≠ "classifier" := by
          intro hs1
          exact hnd.1 (hs1 ▸ List.mem_map_of_mem Prod.fst htail)
        by_cases hc : I.contains s
        · rw [initLoop, if_pos hc, if_neg hs] at h
          cases hcall : st.call d with
          | error err => rw [hcall] at h; simp at h
          | ok d₁ =>
              rw [hcall] at h
              have h2 : (initLoop I rest d₁).2 = .ok d' := by
                have := congrArg Prod.snd h
                simpa using this
              exact ih d₁ (initLoop I rest d₁).1 hnd.2 htail
                (fun q hq => hpres q (List.mem_cons_of_mem _ hq))
                (by rw [← h2])
        · rw [initLoop, if_neg hc] at h
          exact ih d tr hnd.2 htail
            (fun q hq => hpres q (List.mem_cons_of_mem _ hq)) h

/-- If every non-skipped stage's call preserves the binding of key `k`, the
run loop preserves the binding of `k`. -/
theorem runLoop_preserves_key (I : List String) (k : String)
    (steps : List (String × Stage)) (d : Ctx) (tr : List Event) (d' : Ctx)
    (hpres : ∀ q ∈ steps, I.contains q.1 = false → ∀ c c',
      q.2.call c = .ok c' → lookupCtx c' k = lookupCtx c k)
    (h : runLoop I steps d = (tr, .ok d')) :
    lookupCtx d' k = lookupCtx d k := by
  induction steps generalizing d tr with
  | nil =>
      simp [runLoop] at h
      rw [h.2]
  | cons q rest ih =>
      obtain ⟨s, st⟩ := q
      by_cases hc : I.contains s
      · rw [runLoop, if_pos hc] at h
        exact ih d tr (fun q hq => hpres q (List.mem_cons_of_mem _ hq)) h
      · rw [runLoop, if_neg hc] at h
        cases hcall : st.call d with
        | error err => rw [hcall] at h; simp at h
        | ok d₁ =>
            rw [hcall] at h
            have h2 : (runLoop I rest d₁).2 = .ok d' := by
              have := congrArg Prod.snd h
              simpa using this
            have hrec := ih d₁ (runLoop I rest d₁).1
              (fun q hq => hpres q (List.mem_cons_of_mem _ hq))
              (by rw [← h2])
            rw [hrec]
            exact hpres (s, st) (List.mem_cons_self _ _)
              (Bool.eq_false_iff.mpr hc) d d₁ hcall

/-! ### The audit string -/

/-- Concatenation of a list of strings, in order. -/
def concatStrings : List String → String
  | [] => ""
  | s :: rest => s ++ concatStrings rest

/-- The declarative closed form of a successful audit string: one line-group
per stage, in registry order, numbered from 1. -/
def auditString (steps : List (String × Stage)) : String :=
  "\n" ++ concatStrings ((steps.enum).map fun p =>
    lineGroup (p.1 + 1) p.2.1 p.2.2.typeName (p.2.2.varsAttr.getD ""))

theorem stepsToStringAux_ok (steps : List (String × Stage))
    (hv : ∀ q ∈ steps, q.2.varsAttr ≠ none) (i : Nat) :
    stepsToStringAux i steps = .ok (concatStrings ((steps.enumFrom i).map
      fun p => lineGroup (p.1 + 1) p.2.1 p.2.2.typeName
        (p.2.2.varsAttr.getD ""))) := by
  induction steps generalizing i with
  | nil => simp [stepsToStringAux, concatStrings]
  | cons q rest ih =>
      obtain ⟨k, st⟩ := q
      cases hva : st.varsAttr with
      | none => exact absurd hva (hv (k, st) (List.mem_cons_self _ _))
      | some vs =>
          have hrec := ih (fun q hq => hv q (List.mem_cons_of_mem _ hq)) (i + 1)
          simp [stepsToStringAux, stepString, hva, hrec, concatStrings,
            List.enumFrom, Bind.bind, Except.bind]

theorem stepsToStringAux_error (steps : List (String × Stage))
    (hbad : ∃ q ∈ steps, q.2.varsAttr = none) (i : Nat) :
    stepsToStringAux i steps =
      .error (.typeError "vars() argument must have __dict__ attribute") := by
  induction steps generalizing i with
  | nil => simp at hbad
  | cons q rest ih =>
      obtain ⟨k, st⟩ := q
      cases hva : st.varsAttr with
      | none => simp [stepsToStringAux, stepString, hva, Bind.bind, Except.bind]
      | some vs =>
          obtain ⟨q', hq', hq'v⟩ := hbad
          rcases List.mem_cons.mp hq' with hhead | htail
          · rw [hhead] at hq'v
            simp at hq'v
            rw [hq'v] at hva
            exact Option.noConfusion hva
          · have hrec := ih ⟨q', htail, hq'v⟩ (i + 1)
            simp [stepsToStringAux, stepString, hva, hrec, Bind.bind,
              Except.bind]

theorem steps_to_string_ok (steps : List (String × Stage))
    (hv : ∀ q ∈ steps, q.2.varsAttr ≠ none) :
    steps_to_string steps = .ok (auditString steps) := by
  rw [steps_to_string]
  rw [stepsToStringAux_ok steps hv 0]
  simp [auditString, List.enum, Bind.bind, Except.bind]

theorem steps_to_string_error (steps : List (String × Stage))
    (hbad : ∃ q ∈ steps, q.2.varsAttr = none) :
    steps_to_string steps =
      .error (.typeError "vars() argument must have __dict__ attribute") := by
  rw [steps_to_string]
  rw [stepsToStringAux_error steps hbad 0]
  rfl

/-! ### Unfolding lemmas for `Pipeline.run` -/

/-- The data dict at the start of the run-phase stage loop: the engine has
stored the filename and the audit string. -/
def seedData (d : Ctx) (filename : Val) (ss : String) : Ctx :=
  updateCtx (updateCtx d "filename" filename) "steps_string" (.str ss)

theorem run_ok_elim (p : Pipeline) (x v : Val) (p' : Pipeline)
    (tr : List Event) (h : p.run x = (tr, .ok (v, p'))) :
    ∃ ss d3, steps_to_string p.steps = .ok ss ∧
      (runLoop p.initial_steps p.steps (seedData p.data x ss)).2 = .ok d3 ∧
      tr = .store "filename" x :: .store "steps_string" (.str ss) ::
        (runLoop p.initial_steps p.steps (seedData p.data x ss)).1 ∧
      lookupCtx d3 "stats" = some v ∧
      p' = { p with data := d3 } := by
  simp only [Pipeline.run] at h
  split at h
  · simp at h
  · rename_i ss hss
    split at h
    · simp at h
    · rename_i d3 hr
      split at h
      · simp at h
      · rename_i v' hl
        simp only [Prod.mk.injEq, Except.ok.injEq] at h
        obtain ⟨htr, hres⟩ := h
        refine ⟨ss, d3, hss, ?_, ?_, ?_, ?_⟩
        · simpa [seedData] using hr
        · simpa [seedData] using htr.symm
        · rw [hl, hres.1]
        · exact hres.2.symm

theorem run_eval_ok (p : Pipeline) (x : Val) (ss : String) (tr : List Event)
    (d3 : Ctx) (v : Val)
    (hss : steps_to_string p.steps = .ok ss)
    (hr : runLoop p.initial_steps p.steps (seedData p.data x ss) = (tr, .ok d3))
    (hl : lookupCtx d3 "stats" = some v) :
    p.run x = (.store "filename" x :: .store "steps_string" (.str ss) :: tr,
      .ok (v, { p with data := d3 })) := by
  have hr1 := congrArg Prod.fst hr
  have hr2 := congrArg Prod.snd hr
  simp only [seedData] at hr1 hr2
  simp [Pipeline.run, hss, hr1, hr2, hl]

theorem run_eval_stats_missing (p : Pipeline) (x : Val) (ss : String)
    (tr : List Event) (d3 : Ctx)
    (hss : steps_to_string p.steps = .ok ss)
    (hr : runLoop p.initial_steps p.steps (seedData p.data x ss) = (tr, .ok d3))
    (hl : lookupCtx d3 "stats" = none) :
    p.run x = (.store "filename" x :: .store "steps_string" (.str ss) :: tr,
      .error (.keyError "stats")) := by
  have hr1 := congrArg Prod.fst hr
  have hr2 := congrArg Prod.snd hr
  simp only [seedData] at hr1 hr2
  simp [Pipeline.run, hss, hr1, hr2, hl]

theorem run_eval_loop_error (p : Pipeline) (x : Val) (ss : String)
    (tr : List Event) (e : PErr)
    (hss : steps_to_string p.steps = .ok ss)
    (hr : runLoop p.initial_steps p.steps (seedData p.data x ss) =
      (tr, .error e)) :
    p.run x = (.store "filename" x :: .store "steps_string" (.str ss) :: tr,
      .error e) := by
  have hr1 := congrArg Prod.fst hr
  have hr2 := congrArg Prod.snd hr
  simp only [seedData] at hr1 hr2
  simp [Pipeline.run, hss, hr1, hr2]

theorem run_eval_audit_error (p : Pipeline) (x : Val) (e : PErr)
    (hss : steps_to_string p.steps = .error e) :
    p.run x = ([.store "filename" x], .error e) := by
  simp [Pipeline.run, hss]

/-- Every event in a `run` trace is the filename store, the audit-string
store, or a with-context stage invocation. -/
theorem run_trace_shape (p : Pipeline) (x : Val) :
    ∀ e ∈ (p.run x).1, e = .store "filename" x ∨
      (∃ ss, e = .store "steps_string" (.str ss)) ∨
      ∃ n c, e = .callCtx n c := by
  intro e he
  cases hss : steps_to_string p.steps with
  | error err =>
      rw [run_eval_audit_error p x err hss] at he
      simp at he
      exact Or.inl he
  | ok ss =>
      have hshape : (p.run x).1 = .store "filename" x ::
          .store "steps_string" (.str ss) ::
          (runLoop p.initial_steps p.steps (seedData p.data x ss)).1 := by
        simp only [Pipeline.run, hss, seedData]
        split
        · rfl
        · split <;> rfl
      rw [hshape] at he
      simp at he
      rcases he with he | he | he
      · exact Or.inl he
      · exact Or.inr (Or.inl ⟨ss, he⟩)
      · exact Or.inr (Or.inr (runLoop_events _ _ _ e he))

/-- Dangling initial-set names (names that are not stage names) do not change
what the initialization loop does. -/
theorem initLoop_dangling (I : List String) (n : String)
    (steps : List (String × Stage)) (d : Ctx)
    (hn : ¬ n ∈ steps.map Prod.fst) :
    initLoop (n :: I) steps d = initLoop I steps d := by
  induction steps generalizing d with
  | nil => rfl
  | cons q rest ih =>
      obtain ⟨s, st⟩ := q
      have hsn : ¬ s = n := by
        intro h
        exact hn (by simp [h])
      have hn' : ¬ n ∈ rest.map Prod.fst := by
        intro h
        exact hn (by simp [h])
      have hcontains : (n :: I).contains s = I.contains s := by
        have h1 : (s == n) = false := beq_eq_false_iff_ne.mpr hsn
        have h2 : (n == s) = false :=
          beq_eq_false_iff_ne.mpr fun h => hsn h.symm
        simp only [List.contains_cons, h1, h2, Bool.false_or, Bool.or_false]
      rw [initLoop, initLoop, hcontains]
      by_cases hc : I.contains s
      · rw [if_pos hc, if_pos hc]
        by_cases hcl : s = "classifier"
        · rw [if_pos hcl, if_pos hcl]
          cases st.callNoArg with
          | error e => rfl
          | ok v => simp [ih _ hn']
        · rw [if_neg hcl, if_neg hcl]
          cases st.call d with
          | error e => rfl
          | ok d' => simp [ih _ hn']
      · rw [if_neg hc, if_neg hc]
        exact ih d hn'

/-! ### Concrete stages and registries for witnesses and counterexamples -/

/-- A background-correction style initial stage: adds `"imbg"`. -/
def stBackground : Stage where
  typeName := "<class 'holo.Initial'>"
  varsAttr := some "\x7b'pixel_size': 4.4\x7d"
  call := fun d => .ok (updateCtx d "imbg" (.nat 3))
  callNoArg := .error (.typeError "missing required argument: data")

/-- A loader stage: adds `"img"`. -/
def stLoad : Stage where
  typeName := "<class 'SilCamLoad'>"
  varsAttr := some "\x7b\x7d"
  call := fun d => .ok (updateCtx d "img" (.nat 1))
  callNoArg := .error (.typeError "missing required argument: data")

/-- A statistics stage: adds `"stats"`. -/
def stStat : Stage where
  typeName := "<class 'CalculateStats'>"
  varsAttr := some "\x7b\x7d"
  call := fun d => .ok (updateCtx d "stats" (.nat 7))
  callNoArg := .error (.typeError "missing required argument: data")

/-- An identity stage: returns the data dict unchanged. -/
def stId : Stage where
  typeName := "<class 'Identity'>"
  varsAttr := some "\x7b\x7d"
  call := fun d => .ok d
  callNoArg := .error (.typeError "missing required argument: data")

/-- A classifier object: callable with no argument (returning a model
handle) and with the data dict (adding a prediction). -/
def stClassify : Stage where
  typeName := "<class 'Classify'>"
  varsAttr := some "\x7b'model_path': 'model.h5'\x7d"
  call := fun d => .ok (updateCtx d "prediction" (.nat 9))
  callNoArg := .ok (.nat 42)

/-- A stage that returns a fresh empty dict, discarding all prior keys. -/
def stDropAll : Stage where
  typeName := "<class 'DropAll'>"
  varsAttr := some "\x7b\x7d"
  call := fun _ => .ok []
  callNoArg := .error (.typeError "missing required argument: data")

/-- A stage that raises on any invocation. -/
def stBoom : Stage where
  typeName := "<class 'Boom'>"
  varsAttr := some "\x7b\x7d"
  call := fun _ => .error (.stageError "boom")
  callNoArg := .error (.stageError "boom")

/-- A handler without an instance-attribute dictionary: `vars()` on it
raises `TypeError`. -/
def stNoVars : Stage where
  typeName := "<class 'builtin_function_or_method'>"
  varsAttr := none
  call := fun d => .ok d
  callNoArg := .error (.typeError "missing required argument: data")

/-- Witness registry for run-phase claims. -/
def stepsW1 : List (String × Stage) :=
  [("initial", stBackground), ("load", stLoad), ("stat", stStat)]

/-- Witness engine: as after a construction that ran `stBackground`. -/
def pW1 : Pipeline := ⟨["initial"], stepsW1, [("imbg", .nat 3)]⟩

/-- The audit string of the witness registry. -/
def ssW1 : String := auditString stepsW1

/-- The data dict seen by the first run-phase stage of `pW1.run "f1"`. -/
def d2W1 : Ctx := seedData pW1.data (.str "f1") ssW1

/-- The data dict after the `"load"` stage. -/
def d3W1 : Ctx := updateCtx d2W1 "img" (.nat 1)

/-- The data dict after the `"stat"` stage. -/
def d4W1 : Ctx := updateCtx d3W1 "stats" (.nat 7)

/-- The engine state returned by `pW1.run "f1"`. -/
def pW1' : Pipeline := ⟨["initial"], stepsW1, d4W1⟩

/-- The event trace of `pW1.run "f1"`. -/
def trW1 : List Event :=
  [.store "filename" (.str "f1"), .store "steps_string" (.str ssW1),
   .callCtx "load" d2W1, .callCtx "stat" d3W1]

/-! ### Claims -/

/-- C1: every successful `run(x)` first stores `x` under the reserved input
key `"filename"`, then stores the recomputed audit string under the reserved
metadata key `"steps_string"`, then invokes `apply(Context)` on exactly the
registry stages whose names are not in the initial set, in registry order,
once each, threading the Context through their return values, and finally
returns the Context value under key `"stats"`. -/
theorem run_executes_run_phase_stages (p : Pipeline) (x v : Val)
    (p' : Pipeline) (tr : List Event)
    (h : p.run x = (tr, .ok (v, p'))) :
    ∃ ss rest,
      steps_to_string p.steps = .ok ss ∧
      tr = .store "filename" x :: .store "steps_string" (.str ss) :: rest ∧
      (∀ e ∈ rest, ∃ n c, e = .callCtx n c) ∧
      rest.filterMap evStageName =
        (runStages p.initial_steps p.steps).map Prod.fst ∧
      execStages (seedData p.data x ss) (runStages p.initial_steps p.steps) =
        .ok p'.data ∧
      lookupCtx p'.data "stats" = some v := by
  obtain ⟨ss, d3, hss, hr, htr, hl, hp'⟩ := run_ok_elim p x v p' tr h
  have hpair : runLoop p.initial_steps p.steps (seedData p.data x ss) =
      ((runLoop p.initial_steps p.steps (seedData p.data x ss)).1, .ok d3) := by
    rw [← hr]
  have hdata : p'.data = d3 := by rw [hp']
  refine ⟨ss, (runLoop p.initial_steps p.steps (seedData p.data x ss)).1,
    hss, htr, ?_, ?_, ?_, ?_⟩
  · exact runLoop_events _ _ _
  · exact runLoop_ok_names _ _ _ _ _ hpair
  · rw [hdata]
    exact runLoop_ok_exec _ _ _ _ _ hpair
  · rw [hdata]
    exact hl

/-- Witness for C1 at a concrete engine: registry
`[initial, load, stat]` with initial set `["initial"]`, run on `"f1"`. -/
theorem run_executes_run_phase_stages_witness :
    ∃ ss rest,
      steps_to_string pW1.steps = .ok ss ∧
      trW1 = .store "filename" (.str "f1") ::
        .store "steps_string" (.str ss) :: rest ∧
      (∀ e ∈ rest, ∃ n c, e = .callCtx n c) ∧
      rest.filterMap evStageName =
        (runStages pW1.initial_steps pW1.steps).map Prod.fst ∧
      execStages (seedData pW1.data (.str "f1") ss)
        (runStages pW1.initial_steps pW1.steps) = .ok pW1'.data ∧
      lookupCtx pW1'.data "stats" = some (.nat 7) :=
  run_executes_run_phase_stages pW1 (.str "f1") (.nat 7) pW1' trW1 rfl

/-- Registry whose run-phase stages never write `"stats"`. -/
def steps3 : List (String × Stage) :=
  [("initial", stBackground), ("load", stLoad)]

/-- Witness engine for the missing-stats claim. -/
def pW3 : Pipeline := ⟨["initial"], steps3, [("imbg", .nat 3)]⟩

/-- Audit string of `steps3`. -/
def ssW3 : String := auditString steps3

/-- The seeded data dict of `pW3.run "f1"`. -/
def d2W3 : Ctx := seedData pW3.data (.str "f1") ssW3

/-- The data dict after the `"load"` stage of `pW3.run "f1"`. -/
def d3W3 : Ctx := updateCtx d2W3 "img" (.nat 1)

/-- The stage-loop trace of `pW3.run "f1"`. -/
def trW3 : List Event := [.callCtx "load" d2W3]

/-- C3: when the data dict lacks `"stats"` after all run-phase stages have
executed, `run()` fails with a `KeyError` on `"stats"` at the final
extraction — after every run-phase stage has completed (the trace contains
one invocation per run-phase stage) — and returns no default value. -/
theorem run_missing_stats_fails (p : Pipeline) (x : Val) (ss : String)
    (tr : List Event) (d3 : Ctx)
    (hss : steps_to_string p.steps = .ok ss)
    (hr : runLoop p.initial_steps p.steps (seedData p.data x ss) =
      (tr, .ok d3))
    (hl : lookupCtx d3 "stats" = none) :
    p.run x = (.store "filename" x :: .store "steps_string" (.str ss) :: tr,
      .error (.keyError "stats")) ∧
    tr.filterMap evStageName =
      (runStages p.initial_steps p.steps).map Prod.fst :=
  ⟨run_eval_stats_missing p x ss tr d3 hss hr hl,
    runLoop_ok_names _ _ _ _ _ hr⟩

/-- Witness for C3: a registry whose only run-phase stage does not write
`"stats"`. -/
theorem run_missing_stats_fails_witness :
    pW3.run (.str "f1") = (.store "filename" (.str "f1") ::
      .store "steps_string" (.str ssW3) :: trW3, .error (.keyError "stats")) ∧
    trW3.filterMap evStageName =
      (runStages pW3.initial_steps pW3.steps).map Prod.fst :=
  run_missing_stats_fails pW3 (.str "f1") ssW3 trW3 d3W3 rfl rfl rfl

/-- C10: if any handler in the registry has no instance-attribute dictionary
(does not support `vars()`), every call to `run()` fails with the `TypeError`
raised while building the audit string, before any run-phase stage executes:
the trace contains no stage-invocation event. -/
theorem run_fails_in_audit_without_vars (p : Pipeline) (x : Val)
    (hbad : ∃ q ∈ p.steps, q.2.varsAttr = none) :
    p.run x = ([.store "filename" x],
      .error (.typeError "vars() argument must have __dict__ attribute")) ∧
    ∀ e ∈ (p.run x).1, evStageName e = none := by
  have h1 := run_eval_audit_error p x _ (steps_to_string_error p.steps hbad)
  refine ⟨h1, ?_⟩
  intro e he
  rw [h1] at he
  simp at he
  rw [he]
  rfl

/-- Registry containing a handler without `vars()` support. -/
def steps10 : List (String × Stage) :=
  [("load", stLoad), ("weird", stNoVars)]

/-- Witness engine for the vars-failure claim. -/
def pW10 : Pipeline := ⟨["initial"], steps10, []⟩

/-- Witness for C10. -/
theorem run_fails_in_audit_without_vars_witness :
    pW10.run (.str "f1") = ([.store "filename" (.str "f1")],
      .error (.typeError "vars() argument must have __dict__ attribute")) ∧
    ∀ e ∈ (pW10.run (.str "f1")).1, evStageName e = none :=
  run_fails_in_audit_without_vars pW10 (.str "f1")
    ⟨("weird", stNoVars), List.mem_cons_of_mem _ (List.mem_cons_self _ _), rfl⟩

/-- C4: the data dict is engine state and is never reset between calls to
`run()`: a successful run leaves the registry and initial set unchanged, and
every key bound when `run()` returns is still bound — with the same value
unless it is one of the engine-seeded keys — in the data dict at the start
of the next call's stage loop. -/
theorem context_persists_across_runs (p : Pipeline) (x v : Val)
    (p' : Pipeline) (tr : List Event)
    (h : p.run x = (tr, .ok (v, p'))) :
    p'.initial_steps = p.initial_steps ∧ p'.steps = p.steps ∧
    (∀ y : Val, ∀ ss : String, ∀ k w, k ≠ "filename" → k ≠ "steps_string" →
      lookupCtx p'.data k = some w →
      lookupCtx (seedData p'.data y ss) k = some w) ∧
    (∀ y : Val, ∀ ss : String, ∀ k, (lookupCtx p'.data k).isSome →
      (lookupCtx (seedData p'.data y ss) k).isSome) := by
  obtain ⟨ss, d3, hss, hr, htr, hl, hp'⟩ := run_ok_elim p x v p' tr h
  subst hp'
  refine ⟨rfl, rfl, ?_, ?_⟩
  · intro y ss' k w hk1 hk2 hw
    rw [seedData, lookupCtx_update_ne _ _ _ _ hk2,
      lookupCtx_update_ne _ _ _ _ hk1]
    exact hw
  · intro y ss' k hk
    exact lookupCtx_update_isSome _ _ _ _ (lookupCtx_update_isSome _ _ _ _ hk)

/-- Witness for C4: the `"img"` key written during `pW1.run "f1"` is still
bound, with the same value, when the next call (on `"f2"`) reaches its stage
loop. -/
theorem context_persists_across_runs_witness :
    lookupCtx (seedData pW1'.data (.str "f2") ssW1) "img" = some (.nat 1) :=
  (context_persists_across_runs pW1 (.str "f1") (.nat 7) pW1' trW1
    rfl).2.2.1 (.str "f2") ssW1 "img" (.nat 1) (by decide) (by decide) rfl

/-- C5: the audit string is a pure function of the Stage Registry — after a
successful `run()` the registry is unchanged, so recomputing it yields the
identical string — and a successful audit string consists of one line-group
per stage, in registry order, carrying the 1-based index, the stage name,
its type identifier, and its rendered field values. -/
theorem audit_string_deterministic (p : Pipeline) (x v : Val) (p' : Pipeline)
    (tr : List Event) (h : p.run x = (tr, .ok (v, p'))) :
    steps_to_string p'.steps = steps_to_string p.steps ∧
    steps_to_string p.steps = .ok (auditString p.steps) := by
  obtain ⟨ss, d3, hss, hr, htr, hl, hp'⟩ := run_ok_elim p x v p' tr h
  have hsteps : p'.steps = p.steps := by rw [hp']
  have hv : ∀ q ∈ p.steps, q.2.varsAttr ≠ none := by
    intro q hq hq0
    rw [steps_to_string_error p.steps ⟨q, hq, hq0⟩] at hss
    exact Except.noConfusion hss
  exact ⟨by rw [hsteps], steps_to_string_ok p.steps hv⟩

/-- Witness for C5 on the concrete engine `pW1`. -/
theorem audit_string_deterministic_witness :
    steps_to_string pW1'.steps = steps_to_string pW1.steps ∧
    steps_to_string pW1.steps = .ok (auditString pW1.steps) :=
  audit_string_deterministic pW1 (.str "f1") (.nat 7) pW1' trW1 rfl

theorem run_noArg_count_zero (p : Pipeline) (x : Val) :
    (p.run x).1.countP isNoArgEvent = 0 := by
  rw [List.countP_eq_zero]
  intro e he
  rcases run_trace_shape p x e he with h | ⟨ss, h⟩ | ⟨n, c, h⟩ <;>
    rw [h] <;> simp [isNoArgEvent]

theorem initStages_classifier_count (I : List String)
    (steps : List (String × Stage)) (cst : Stage)
    (hnd : (steps.map Prod.fst).Nodup)
    (hmem : ("classifier", cst) ∈ steps)
    (hI : I.contains "classifier" = true) :
    ((initStages I steps).map Prod.fst).count "classifier" = 1 := by
  have hsub : List.Sublist (initStages I steps) steps :=
    List.filter_sublist _
  have hnd' : ((initStages I steps).map Prod.fst).Nodup :=
    List.Nodup.sublist (hsub.map Prod.fst) hnd
  have hmem' : "classifier" ∈ (initStages I steps).map Prod.fst :=
    List.mem_map_of_mem Prod.fst (List.mem_filter.mpr ⟨hmem, hI⟩)
  exact List.count_eq_one_of_mem hnd' hmem'

/-- Declarative sequential execution of the initialization phase over a
stage list: the entry named `"classifier"` is invoked with no argument and
its result stored under `"cl"`; every other entry is invoked with the
context, which is replaced by its return value. -/
def execInitStages (d : Ctx) (ss : List (String × Stage)) :
    Except PErr Ctx :=
  match ss with
  | [] => .ok d
  | (s, st) :: rest =>
      if s = "classifier" then
        match st.callNoArg with
        | .error e => .error e
        | .ok v => execInitStages (updateCtx d "cl" v) rest
      else
        match st.call d with
        | .error e => .error e
        | .ok d' => execInitStages d' rest

theorem initLoop_ok_exec (I : List String) (steps : List (String × Stage))
    (d : Ctx) (tr : List Event) (d' : Ctx)
    (h : initLoop I steps d = (tr, .ok d')) :
    execInitStages d (initStages I steps) = .ok d' := by
  induction steps generalizing d tr with
  | nil =>
      simp [initLoop] at h
      simp [initStages, execInitStages, h.2]
  | cons q rest ih =>
      obtain ⟨s, st⟩ := q
      by_cases hc : I.contains s
      · by_cases hcl : s = "classifier"
        · subst hcl
          rw [initLoop, if_pos hc, if_pos rfl] at h
          cases hna : st.callNoArg with
          | error err => rw [hna] at h; simp at h
          | ok v =>
              rw [hna] at h
              have h2 : (initLoop I rest (updateCtx d "cl" v)).2 =
                  .ok d' := by
                have := congrArg Prod.snd h
                simpa using this
              have hrec := ih (updateCtx d "cl" v)
                (initLoop I rest (updateCtx d "cl" v)).1 (by rw [← h2])
              simp only [initStages, List.filter_cons, hc] at hrec ⊢
              rw [execInitStages.eq_def]
              simpa [hna, initStages] using hrec
        · rw [initLoop, if_pos hc, if_neg hcl] at h
          cases hcall : st.call d with
          | error err => rw [hcall] at h; simp at h
          | ok d₁ =>
              rw [hcall] at h
              have h2 : (initLoop I rest d₁).2 = .ok d' := by
                have := congrArg Prod.snd h
                simpa using this
              have hrec := ih d₁ (initLoop I rest d₁).1 (by rw [← h2])
              simp only [initStages, List.filter_cons, hc] at hrec ⊢
              rw [execInitStages.eq_def]
              simpa [hcl, hcall, initStages] using hrec
      · rw [initLoop, if_neg hc] at h
        simp only [initStages, List.filter_cons, hc]
        simpa [initStages] using ih d tr h

/-- Every event of the initialization loop is a with-context invocation of a
non-classifier stage, the classifier's no-argument invocation, or the
engine's store of the classifier result under `"cl"`. -/
theorem initLoop_events_shape (I : List String)
    (steps : List (String × Stage)) (d : Ctx) :
    ∀ e ∈ (initLoop I steps d).1,
      (∃ n c, e = .callCtx n c ∧ n ≠ "classifier") ∨
      e = .callNoArg "classifier" ∨ ∃ v, e = .store "cl" v := by
  induction steps generalizing d with
  | nil => intro e he; simp [initLoop] at he
  | cons q rest ih =>
      intro e he
      obtain ⟨s, st⟩ := q
      by_cases hc : I.contains s
      · by_cases hcl : s = "classifier"
        · subst hcl
          rw [initLoop, if_pos hc, if_pos rfl] at he
          cases hna : st.callNoArg with
          | error err =>
              rw [hna] at he
              simp at he
              subst he
              exact Or.inr (Or.inl rfl)
          | ok v =>
              rw [hna] at he
              simp at he
              rcases he with he | he | he
              · subst he; exact Or.inr (Or.inl rfl)
              · subst he; exact Or.inr (Or.inr ⟨v, rfl⟩)
              · exact ih _ e he
        · rw [initLoop, if_pos hc, if_neg hcl] at he
          cases hcall : st.call d with
          | error err =>
              rw [hcall] at he
              simp at he
              subst he
              exact Or.inl ⟨s, d, rfl, hcl⟩
          | ok d₁ =>
              rw [hcall] at he
              simp at he
              rcases he with he | he
              · subst he; exact Or.inl ⟨s, d, rfl, hcl⟩
              · exact ih _ e he
      · rw [initLoop, if_neg hc] at he
        exact ih d e he

/-- If the classifier entry is present (under unique names) and its name is
in the initial set, a successful initialization invoked it with no argument
and stored its returned value under `"cl"`. -/
theorem initLoop_classifier_invoked (I : List String)
    (steps : List (String × Stage)) (cst : Stage) (d : Ctx)
    (tr : List Event) (d' : Ctx)
    (hnd : (steps.map Prod.fst).Nodup)
    (hmem : ("classifier", cst) ∈ steps)
    (hI : I.contains "classifier" = true)
    (h : initLoop I steps d = (tr, .ok d')) :
    ∃ v, cst.callNoArg = .ok v ∧ Event.store "cl" v ∈ tr := by
  induction steps generalizing d tr with
  | nil => simp at hmem
  | cons q rest ih =>
      obtain ⟨s, st⟩ := q
      simp only [List.map_cons, List.nodup_cons] at hnd
      rcases List.mem_cons.mp hmem with hhead | htail
      · injection hhead with hs hst
        subst hs
        subst hst
        rw [initLoop, if_pos hI, if_pos rfl] at h
        cases hna : cst.callNoArg with
        | error err => rw [hna] at h; simp at h
        | ok v =>
            rw [hna] at h
            have h1 : tr = .callNoArg "classifier" :: .store "cl" v ::
                (initLoop I rest (updateCtx d "cl" v)).1 := by
              have := congrArg Prod.fst h
              simpa using this.symm
            exact ⟨v, rfl, by
              rw [h1]
              exact List.mem_cons_of_mem _ (List.mem_cons_self _ _)⟩
      · have hs : s ≠ "classifier" := by
          intro hs1
          exact hnd.1 (hs1 ▸ List.mem_map_of_mem Prod.fst htail)
        by_cases hc : I.contains s
        · rw [initLoop, if_pos hc, if_neg hs] at h
          cases hcall : st.call d with
          | error err => rw [hcall] at h; simp at h
          | ok d₁ =>
              rw [hcall] at h
              have h1 : tr = .callCtx s d :: (initLoop I rest d₁).1 := by
                have := congrArg Prod.fst h
                simpa using this.symm
              have h2 : (initLoop I rest d₁).2 = .ok d' := by
                have := congrArg Prod.snd h
                simpa using this
              obtain ⟨v, hv, hst'⟩ := ih d₁ (initLoop I rest d₁).1 hnd.2
                htail (by rw [← h2])
              exact ⟨v, hv, by rw [h1]; exact List.mem_cons_of_mem _ hst'⟩
        · rw [initLoop, if_neg hc] at h
          exact ih d tr hnd.2 htail h

/-- C2 (amended): for every Stage Registry and initial set, a successful
construction invokes exactly the registry stages whose names are in the
initial set, in registry order; every such stage other than the classifier
is invoked as `apply(Context)` with the Context replaced by its return
value (the final dict is the declarative fold `execInitStages` over the
initial-set stages); the stage named `"classifier"`, if present (registry
names are unique) and in the initial set, is invoked with no argument
exactly once across the engine's lifetime (never during `run()`) and its
return value is stored under `"cl"`; Context[`"cl"`] still equals that
value after construction provided the other initial-set stages preserve
the `"cl"` binding. -/
theorem init_runs_initial_stages (steps : List (String × Stage))
    (I : List String) (tr : List Event) (p : Pipeline)
    (h : Pipeline.init steps I = (tr, .ok p)) :
    tr.filterMap evStageName = (initStages I steps).map Prod.fst ∧
    (∀ e ∈ tr, (∃ n c, e = .callCtx n c ∧ n ≠ "classifier") ∨
      e = .callNoArg "classifier" ∨ ∃ v, e = .store "cl" v) ∧
    execInitStages [] (initStages I steps) = .ok p.data ∧
    ∀ cst, ("classifier", cst) ∈ steps → (steps.map Prod.fst).Nodup →
      I.contains "classifier" = true →
      tr.countP isNoArgEvent = 1 ∧
      (∀ x : Val, (p.run x).1.countP isNoArgEvent = 0) ∧
      ∃ v, cst.callNoArg = .ok v ∧ Event.store "cl" v ∈ tr ∧
        ((∀ q ∈ steps, q.1 ≠ "classifier" → ∀ c c',
            q.2.call c = .ok c' → lookupCtx c' "cl" = lookupCtx c "cl") →
          lookupCtx p.data "cl" = some v) := by
  have h1 := congrArg Prod.fst h
  have h2 := congrArg Prod.snd h
  simp only [Pipeline.init] at h1 h2
  cases hres : (initLoop I steps []).2 with
  | error e => rw [hres] at h2; simp [Except.map] at h2
  | ok d =>
      rw [hres] at h2
      simp only [Except.map, Except.ok.injEq] at h2
      have hpair : initLoop I steps [] = (tr, .ok d) := by
        rw [← h1, ← hres]
      have hdata : p.data = d := by rw [← h2]
      refine ⟨initLoop_ok_names I steps [] tr d hpair, ?_, ?_, ?_⟩
      · intro e he
        rw [← h1] at he
        exact initLoop_events_shape I steps [] e he
      · rw [hdata]
        exact initLoop_ok_exec I steps [] tr d hpair
      · intro cst hmem hnd hI
        refine ⟨?_, ?_, ?_⟩
        · rw [initLoop_noArg_count I steps [] tr d hpair]
          exact initStages_classifier_count I steps cst hnd hmem hI
        · intro x
          exact run_noArg_count_zero p x
        · obtain ⟨v, hv, hst⟩ := initLoop_classifier_invoked I steps cst []
            tr d hnd hmem hI hpair
          refine ⟨v, hv, hst, ?_⟩
          intro hpres
          obtain ⟨v2, hv2, hl2⟩ := initLoop_cl I steps cst [] tr d hnd hmem
            hI hpres hpair
          rw [hv] at hv2
          injection hv2 with hvv
          rw [hdata, hl2, hvv]

/-- Registry in which an initial stage placed after the classifier replaces
the whole data dict. -/
def stepsXc : List (String × Stage) :=
  [("classifier", stClassify), ("initial", stDropAll)]

/-- Counterexample to C2 as stated: with the default initial set,
construction of `stepsXc` succeeds and the classifier returned `42`, yet
after construction the data dict has no `"cl"` binding at all — the later
initial-set stage `"initial"` replaced the dict with an empty one, so
Context[`"cl"`] does not equal the classifier's return value. -/
theorem init_cl_overwritten_counterexample :
    stClassify.callNoArg = .ok (.nat 42) ∧
    ((Pipeline.init stepsXc).2.map fun p => lookupCtx p.data "cl") =
      .ok none :=
  ⟨rfl, rfl⟩

/-- Registry for the C2 witness. -/
def steps2W : List (String × Stage) :=
  [("initial", stBackground), ("classifier", stClassify), ("load", stLoad)]

/-- The trace of constructing `steps2W` with the default initial set. -/
def tr2W : List Event :=
  [.callCtx "initial" [], .callNoArg "classifier", .store "cl" (.nat 42)]

/-- The engine produced by constructing `steps2W`. -/
def p2W : Pipeline :=
  ⟨["initial", "classifier"], steps2W, [("imbg", .nat 3), ("cl", .nat 42)]⟩

/-- Witness for C2 (amended) on a concrete registry. -/
theorem init_runs_initial_stages_witness :
    tr2W.filterMap evStageName =
      (initStages ["initial", "classifier"] steps2W).map Prod.fst ∧
    (∀ e ∈ tr2W, (∃ n c, e = .callCtx n c ∧ n ≠ "classifier") ∨
      e = .callNoArg "classifier" ∨ ∃ v, e = .store "cl" v) ∧
    execInitStages [] (initStages ["initial", "classifier"] steps2W) =
      .ok p2W.data ∧
    ∀ cst, ("classifier", cst) ∈ steps2W →
      (steps2W.map Prod.fst).Nodup →
      (["initial", "classifier"].contains "classifier") = true →
      tr2W.countP isNoArgEvent = 1 ∧
      (∀ x : Val, (p2W.run x).1.countP isNoArgEvent = 0) ∧
      ∃ v, cst.callNoArg = .ok v ∧ Event.store "cl" v ∈ tr2W ∧
        ((∀ q ∈ steps2W, q.1 ≠ "classifier" → ∀ c c',
            q.2.call c = .ok c' → lookupCtx c' "cl" = lookupCtx c "cl") →
          lookupCtx p2W.data "cl" = some v) :=
  init_runs_initial_stages steps2W ["initial", "classifier"] tr2W p2W rfl

theorem store_ne_of_key_ne {k k' : String} {v w : Val} (h : k ≠ k') :
    Event.store k v ≠ .store k' w := by
  intro hcon
  injection hcon with h1 h2
  exact h h1

/-- C9: the zero-argument special case for `"classifier"` applies only
during initialization: when the initial set does not contain
`"classifier"`, no no-argument invocation and no engine store to `"cl"`
ever happens (neither at construction nor during any `run()`), the
classifier entry is an ordinary run-phase stage, and every successful run
invoked it with the data dict like any other stage. -/
theorem classifier_ordinary_when_not_initial (steps : List (String × Stage))
    (I : List String) (cst : Stage) (x : Val)
    (hI : I.contains "classifier" = false)
    (hmem : ("classifier", cst) ∈ steps) :
    (∀ e ∈ (initLoop I steps []).1,
      (∀ n, e ≠ .callNoArg n) ∧ ∀ w, e ≠ .store "cl" w) ∧
    ("classifier", cst) ∈ runStages I steps ∧
    (∀ p : Pipeline, p.initial_steps = I → p.steps = steps →
      (∀ e ∈ (p.run x).1,
        (∀ n, e ≠ .callNoArg n) ∧ ∀ w, e ≠ .store "cl" w) ∧
      ∀ v p' tr, p.run x = (tr, .ok (v, p')) →
        ∃ c, Event.callCtx "classifier" c ∈ tr) := by
  refine ⟨initLoop_no_classifier I hI steps [], ?_, ?_⟩
  · refine List.mem_filter.mpr ⟨hmem, ?_⟩
    simp only [decide_eq_true_eq]
    intro hc
    rw [hI] at hc
    exact Bool.noConfusion hc
  · intro p hpI hpS
    constructor
    · intro e he
      rcases run_trace_shape p x e he with h | ⟨ss, h⟩ | ⟨n, c, h⟩ <;> subst h
      · exact ⟨fun n => Event.noConfusion,
          fun w => store_ne_of_key_ne (by decide)⟩
      · exact ⟨fun n => Event.noConfusion,
          fun w => store_ne_of_key_ne (by decide)⟩
      · exact ⟨fun n' => Event.noConfusion, fun w => Event.noConfusion⟩
    · intro v p' tr hrun
      obtain ⟨ss, d3, hss, hr, htr, hl, hp'⟩ := run_ok_elim p x v p' tr hrun
      have hnames := runLoop_ok_names p.initial_steps p.steps
        (seedData p.data x ss)
        (runLoop p.initial_steps p.steps (seedData p.data x ss)).1 d3
        (by rw [← hr])
      have hclmem : "classifier" ∈
          (runLoop p.initial_steps p.steps (seedData p.data x ss)).1.filterMap
            evStageName := by
        rw [hnames, hpI, hpS]
        refine List.mem_map_of_mem Prod.fst
          (List.mem_filter.mpr ⟨hmem, ?_⟩)
        simp only [decide_eq_true_eq]
        intro hc
        rw [hI] at hc
        exact Bool.noConfusion hc
      obtain ⟨e, hemem, hename⟩ := List.mem_filterMap.mp hclmem
      obtain ⟨n, c, hecall⟩ := runLoop_events p.initial_steps p.steps
        (seedData p.data x ss) e hemem
      subst hecall
      have hn : n = "classifier" := by
        simpa [evStageName] using hename
      subst hn
      refine ⟨c, ?_⟩
      rw [htr]
      exact List.mem_cons_of_mem _ (List.mem_cons_of_mem _ hemem)

/-- Registry with a classifier entry used as an ordinary run-phase stage. -/
def steps9 : List (String × Stage) :=
  [("classifier", stClassify), ("load", stLoad), ("stat", stStat)]

/-- Witness engine for C9: the initial set does not name `"classifier"`. -/
def pW9 : Pipeline := ⟨["initial"], steps9, []⟩

/-- Witness for C9 on a concrete registry. -/
theorem classifier_ordinary_when_not_initial_witness :
    (∀ e ∈ (initLoop ["initial"] steps9 []).1,
      (∀ n, e ≠ .callNoArg n) ∧ ∀ w, e ≠ .store "cl" w) ∧
    ("classifier", stClassify) ∈ runStages ["initial"] steps9 ∧
    (∀ p : Pipeline, p.initial_steps = ["initial"] → p.steps = steps9 →
      (∀ e ∈ (p.run (.str "f1")).1,
        (∀ n, e ≠ .callNoArg n) ∧ ∀ w, e ≠ .store "cl" w) ∧
      ∀ v p' tr, p.run (.str "f1") = (tr, .ok (v, p')) →
        ∃ c, Event.callCtx "classifier" c ∈ tr) :=
  classifier_ordinary_when_not_initial steps9 ["initial"] stClassify
    (.str "f1") rfl (List.mem_cons_self _ _)

/-- Registry for the dangling-initial-set counterexample. -/
def stepsC6 : List (String × Stage) := [("load", stLoad)]

/-- Counterexample to C6 as stated: the default initial set refers to the
names `"initial"` and `"classifier"`, neither of which exists in the
registry (a malformed initial-set reference), yet construction succeeds —
no configuration error is detected and construction does not abort. -/
theorem dangling_initial_name_counterexample :
    (¬ "initial" ∈ stepsC6.map Prod.fst) ∧
    (¬ "classifier" ∈ stepsC6.map Prod.fst) ∧
    (Pipeline.init stepsC6).2 =
      .ok ⟨["initial", "classifier"], stepsC6, []⟩ :=
  ⟨by decide, by decide, rfl⟩

/-- C6 (amended): construction performs no configuration validation.
Duplicate stage names are unrepresentable in the registry mapping, and an
initial-set name that does not exist in the registry is silently ignored:
construction behaves exactly as if that name were absent from the initial
set — same trace and same resulting data dict (in particular, same success
or failure) — rather than detecting an error and aborting. -/
theorem dangling_initial_name_ignored (steps : List (String × Stage))
    (I : List String) (n : String) (hn : ¬ n ∈ steps.map Prod.fst) :
    (Pipeline.init steps (n :: I)).1 = (Pipeline.init steps I).1 ∧
    ((Pipeline.init steps (n :: I)).2.map Pipeline.data) =
      ((Pipeline.init steps I).2.map Pipeline.data) := by
  have h := initLoop_dangling I n steps [] hn
  constructor
  · simp only [Pipeline.init, h]
  · simp only [Pipeline.init, h]
    cases (initLoop I steps []).2 <;> rfl

/-- Witness for C6 (amended): adding the dangling name `"background"` to the
initial set changes nothing observable about construction. -/
theorem dangling_initial_name_ignored_witness :
    (Pipeline.init stepsC6 ["background", "load"]).1 =
      (Pipeline.init stepsC6 ["load"]).1 ∧
    ((Pipeline.init stepsC6 ["background", "load"]).2.map Pipeline.data) =
      ((Pipeline.init stepsC6 ["load"]).2.map Pipeline.data) :=
  dangling_initial_name_ignored stepsC6 ["load"] "background" (by decide)

/-- C7: stage failures propagate unmodified with no retry and no recovery:
(a) a non-classifier initial-set stage that raises aborts construction with
exactly that exception, the trace ending at the failing invocation (no
engine value is produced, so the engine is never partially initialized yet
usable); (b) likewise for the classifier's no-argument invocation; (c) a
run-phase stage that raises makes `run()` return exactly that exception. -/
theorem failures_propagate_unmodified :
    (∀ (I : List String) (pre : List (String × Stage)) (s : String)
       (st : Stage) (post : List (String × Stage)) (tr : List Event)
       (d : Ctx) (e : PErr),
       initLoop I pre [] = (tr, .ok d) →
       I.contains s = true → s ≠ "classifier" → st.call d = .error e →
       (Pipeline.init (pre ++ (s, st) :: post) I).2 = .error e ∧
       (Pipeline.init (pre ++ (s, st) :: post) I).1 =
         tr ++ [.callCtx s d]) ∧
    (∀ (I : List String) (pre : List (String × Stage)) (st : Stage)
       (post : List (String × Stage)) (tr : List Event) (d : Ctx) (e : PErr),
       initLoop I pre [] = (tr, .ok d) →
       I.contains "classifier" = true → st.callNoArg = .error e →
       (Pipeline.init (pre ++ ("classifier", st) :: post) I).2 = .error e ∧
       (Pipeline.init (pre ++ ("classifier", st) :: post) I).1 =
         tr ++ [.callNoArg "classifier"]) ∧
    (∀ (p : Pipeline) (x : Val) (ss : String) (pre : List (String × Stage))
       (s : String) (st : Stage) (post : List (String × Stage))
       (tr : List Event) (d : Ctx) (e : PErr),
       p.steps = pre ++ (s, st) :: post →
       steps_to_string p.steps = .ok ss →
       runLoop p.initial_steps pre (seedData p.data x ss) = (tr, .ok d) →
       p.initial_steps.contains s = false → st.call d = .error e →
       (p.run x).2 = .error e) := by
  refine ⟨?_, ?_, ?_⟩
  · intro I pre s st post tr d e hpre hs hns herr
    have happ := initLoop_append_ok I pre ((s, st) :: post) [] tr d hpre
    have hstep : initLoop I ((s, st) :: post) d =
        ([.callCtx s d], .error e) := by
      rw [initLoop, if_pos hs, if_neg hns, herr]
    rw [hstep] at happ
    constructor
    · simp [Pipeline.init, happ, Except.map]
    · simp [Pipeline.init, happ]
  · intro I pre st post tr d e hpre hs herr
    have happ := initLoop_append_ok I pre (("classifier", st) :: post) []
      tr d hpre
    have hstep : initLoop I (("classifier", st) :: post) d =
        ([.callNoArg "classifier"], .error e) := by
      rw [initLoop, if_pos hs, if_pos rfl, herr]
    rw [hstep] at happ
    constructor
    · simp [Pipeline.init, happ, Except.map]
    · simp [Pipeline.init, happ]
  · intro p x ss pre s st post tr d e hsteps hss hloop hs herr
    have hstep : runLoop p.initial_steps ((s, st) :: post) d =
        ([.callCtx s d], .error e) := by
      rw [runLoop, if_neg (by intro hc; rw [hs] at hc; exact Bool.noConfusion hc), herr]
    have hall : runLoop p.initial_steps p.steps (seedData p.data x ss) =
        (tr ++ [.callCtx s d], .error e) := by
      rw [hsteps]
      rw [runLoop_append_ok p.initial_steps pre ((s, st) :: post) _ tr d
        hloop, hstep]
    rw [run_eval_loop_error p x ss (tr ++ [.callCtx s d]) e hss hall]

/-- Engine whose single run-phase stage raises. -/
def pW7 : Pipeline := ⟨["initial"], [("boom", stBoom)], []⟩

/-- Audit string of `pW7`'s registry. -/
def ssW7 : String := auditString [("boom", stBoom)]

/-- Witness for C7: a raising initial stage, a raising classifier, and a
raising run-phase stage each surface their own exception unmodified. -/
theorem failures_propagate_unmodified_witness :
    (Pipeline.init [("initial", stBoom), ("load", stLoad)]
      ["initial", "classifier"]).2 = .error (.stageError "boom") ∧
    (Pipeline.init [("classifier", stBoom)]).2 =
      .error (.stageError "boom") ∧
    (pW7.run (.str "f1")).2 = .error (.stageError "boom") :=
  ⟨(failures_propagate_unmodified.1 ["initial", "classifier"] [] "initial"
      stBoom [("load", stLoad)] [] [] (.stageError "boom") rfl rfl
      (by decide) rfl).1,
   (failures_propagate_unmodified.2.1 ["initial", "classifier"] [] stBoom
      [] [] [] (.stageError "boom") rfl rfl rfl).1,
   failures_propagate_unmodified.2.2 pW7 (.str "f1") ssW7 [] "boom" stBoom
      [] [] (seedData pW7.data (.str "f1") ssW7) (.stageError "boom") rfl rfl
      rfl rfl rfl⟩

/-- C8: if the data dict already binds `"stats"` (left by an initial stage
or an earlier call) and the run-phase stages all succeed without touching
the `"stats"` binding, `run()` completes without error and returns that
stale value instead of raising an output-contract error. -/
theorem stale_stats_returned (p : Pipeline) (x v : Val) (ss : String)
    (hst : lookupCtx p.data "stats" = some v)
    (hss : steps_to_string p.steps = .ok ss)
    (hpres : ∀ q ∈ p.steps, p.initial_steps.contains q.1 = false →
      ∀ c c', q.2.call c = .ok c' →
        lookupCtx c' "stats" = lookupCtx c "stats")
    (hok : ∃ d3, (runLoop p.initial_steps p.steps
      (seedData p.data x ss)).2 = .ok d3) :
    ∃ p', (p.run x).2 = .ok (v, p') := by
  obtain ⟨d3, hd3⟩ := hok
  have hpair : runLoop p.initial_steps p.steps (seedData p.data x ss) =
      ((runLoop p.initial_steps p.steps (seedData p.data x ss)).1,
        .ok d3) := by
    rw [← hd3]
  have hseed : lookupCtx (seedData p.data x ss) "stats" = some v := by
    rw [seedData, lookupCtx_update_ne _ _ _ _ (by decide),
      lookupCtx_update_ne _ _ _ _ (by decide)]
    exact hst
  have hkeep := runLoop_preserves_key p.initial_steps "stats" p.steps
    (seedData p.data x ss) _ d3 hpres hpair
  have hl : lookupCtx d3 "stats" = some v := by rw [hkeep, hseed]
  refine ⟨{ p with data := d3 }, ?_⟩
  rw [run_eval_ok p x ss _ d3 v hss hpair hl]

/-- Engine holding a stale `"stats"` value, with an identity run stage. -/
def pW8 : Pipeline := ⟨["initial"], [("proc", stId)], [("stats", .nat 5)]⟩

/-- Audit string of `pW8`'s registry. -/
def ssW8 : String := auditString [("proc", stId)]

/-- Witness for C8: the stale value `5` is returned without error. -/
theorem stale_stats_returned_witness :
    ∃ p', (pW8.run (.str "f2")).2 = .ok (.nat 5, p') := by
  refine stale_stats_returned pW8 (.str "f2") (.nat 5) ssW8 rfl rfl ?_
    ⟨seedData pW8.data (.str "f2") ssW8, rfl⟩
  intro q hq hcontains c c' hcc
  rcases List.mem_cons.mp hq with h | hq
  · subst h
    injection hcc with hc
    subst hc
    rfl
  · exact absurd hq (List.not_mem_nil q)
